import Mathlib

/-!
Verification of the interview-query scan pipeline.

This file is a shallow embedding of the relevance-classification and
scan-rotation core of the repository (reddit_scanner.py, local_storage.py,
supabase_storage.py, the scan orchestration of main.py), together with
theorems settling the frozen claims about it.

Modelling conventions:
  * Python strings are Lean `String`s (a list of characters); the Python
    substring test `needle in haystack` is `containsSub haystack needle`;
    `str.lower()` is a character-wise `Char.toLower` map.
  * The Reddit fetch collaborator is a parameter
    `fetch : String → Option (List RawPost)`; `none` models the fetch
    raising an exception (caught at the call site in `scan_subreddit`).
  * The persisted JSON stores are explicit values threaded through the
    functions: the rotation cursor is a `Nat`, the opportunity store a
    `List Opp`, the in-process seen-post cache a `List String` of post ids.
  * `generate_id` (a truncated MD5 of the URL) is abstracted as a
    parameter `gid : String → String`; both storage backends share it, and
    the only property the code relies on is that it is a function of the
    URL (same URL, same id), which any such parameter has.
  * Presentational record fields not observed by any claim (text snippet,
    author, rules strings, ...) are omitted from the result record.
-/

/-! ## String utilities (Python `in` and `.lower()`) -/

/-- Character-list version of Python substring containment. -/
def charSub (needle : List Char) : List Char → Bool
  | [] => needle.isEmpty
  | b :: bs => needle.isPrefixOf (b :: bs) || charSub needle bs

/-- Python `needle in haystack` on strings. -/
def containsSub (haystack needle : String) : Bool :=
  charSub needle.toList haystack.toList

/-- Python `s.lower()` (character-wise, which is what the code relies on
for its ASCII phrase lists). -/
def lowerStr (s : String) : String :=
  String.mk (s.toList.map Char.toLower)

/-! ## RelevanceClassifier (reddit_scanner.py) -/

/-- The hard-coded disqualifier phrases of `is_relevant_to_interview_query`. -/
def strong_disqualifiers : List String :=
  ["focus group", "market research", "paid study", "cat food", "dog food",
   "scam", "legitimacy", "fake job", "pyramid scheme",
   "resume review", "cover letter", "job application form",
   "salary negotiation", "offer letter", "signing bonus", "counter offer",
   "quit my job", "toxic boss", "work life balance", "layoff", "fired"]

/-- The hard-coded strong-qualifier phrases of `is_relevant_to_interview_query`. -/
def strong_qualifiers : List String :=
  ["interview prep", "preparing for interview", "interview tips",
   "coding interview", "technical interview", "behavioral interview",
   "system design interview", "case study interview",
   "how to prepare", "practice questions", "mock interview",
   "interview coming up", "have an interview", "got an interview",
   "interview next week", "interview tomorrow", "upcoming interview",
   "what to expect in interview", "interview process at",
   "data science interview", "data analyst interview", "sql interview",
   "python interview", "machine learning interview",
   "leetcode", "hackerrank", "codesignal", "online assessment"]

/-- Model of `RedditScanner.matches_keywords`: every configured keyword contained
(case-insensitively) in the text, in configuration order. -/
def matches_keywords (keywords : List String) (text : String) : List String :=
  if text = "" then []
  else keywords.filter (fun kw => containsSub (lowerStr text) (lowerStr kw))

/-- Model of `RedditScanner.is_relevant_to_interview_query`: the secondary relevance
check used when only the broad keyword "interview" matched.  Disqualifiers
are checked first (hard veto), then strong qualifiers, then a count of
configured relevant signals with threshold 2.  Note the signals themselves
are not lowercased by the code. -/
def is_relevant_to_interview_query (signals : List String) (text : String) : Bool :=
  if text = "" then false
  else
    let tl := lowerStr text
    if strong_disqualifiers.any (fun d => containsSub tl d) then false
    else if strong_qualifiers.any (fun q => containsSub tl q) then true
    else decide (2 ≤ signals.countP (fun s => containsSub tl s))

/-- The hard-coded high-intent phrases of `get_intent_level`. -/
def high_intent_signals : List String :=
  ["interview questions", "interview process", "interview prep",
   "preparing for interview", "got an interview", "have an interview",
   "interview coming up", "technical interview", "coding interview",
   "failed interview", "flunked interview"]

/-- Model of `RedditScanner.get_intent_level`. -/
def get_intent_level (text : String) (matched : List String) : String :=
  let tl := lowerStr text
  if high_intent_signals.any (fun s => containsSub tl s) then "HIGH"
  else if matched.any (fun kw => containsSub (lowerStr kw) ("interview")) then "HIGH"
  else "LOW"

/-- The keep/skip decision of the post loop in `scan_subreddit`
(lines 222-225): a post is kept iff some keyword matched, except that a
match list equal to exactly `["interview"]` must additionally pass the
secondary relevance check. -/
def keep_decision (keywords signals : List String) (text : String) : Bool :=
  let matched := matches_keywords keywords text
  if matched = [] then false
  else if matched = ["interview"] ∧ is_relevant_to_interview_query signals text = false
    then false
  else true

/-! ## RotationScheduler (local_storage.py / supabase_storage.py)

`get_next_subreddits` and `get_current_batch_number` are textually
identical in the two backends; the persisted `next_index` is passed and
returned explicitly. -/

/-- Model of `get_next_subreddits(all_subreddits, batch_size)` with cursor
`state_index`: returns the batch and the new cursor. -/
def get_next_subreddits (all_subreddits : List String) (batch_size : Nat)
    (state_index : Nat) : List String × Nat :=
  let total := all_subreddits.length
  let next_index := if total ≤ state_index then 0 else state_index
  let end_index := min (next_index + batch_size) total
  let batch := (all_subreddits.drop next_index).take (end_index - next_index)
  if batch.length < batch_size ∧ 0 < next_index then
    let remaining := batch_size - batch.length
    (batch ++ all_subreddits.take remaining, remaining)
  else
    (batch, if end_index < total then end_index else 0)

/-- Model of `get_current_batch_number(total_subreddits, batch_size)` reading cursor
`next_index`. -/
def get_current_batch_number (total_subreddits batch_size next_index : Nat) : Nat :=
  if next_index = 0 then (total_subreddits + batch_size - 1) / batch_size
  else (next_index + batch_size - 1) / batch_size

/-- The batches produced by `n` consecutive `get_next_subreddits` calls
starting from cursor `c`. -/
def rot_batches (u : List String) (k : Nat) : Nat → Nat → List (List String)
  | 0, _ => []
  | n + 1, c =>
    (get_next_subreddits u k c).1 :: rot_batches u k n (get_next_subreddits u k c).2

/-- The cursor after `n` consecutive `get_next_subreddits` calls starting
from cursor `c`. -/
def rot_cursor (u : List String) (k : Nat) : Nat → Nat → Nat
  | 0, c => c
  | n + 1, c => rot_cursor u k n (get_next_subreddits u k c).2

/-! ## ScanPipeline (scan_subreddit / scan loop of trigger_scan) -/

/-- A raw Reddit post as delivered by the fetch collaborator. -/
structure RawPost where
  pid : String
  title : String
  selftext : String
  permalink : String
  score : Int
  created_utc : Int
deriving DecidableEq, Repr

/-- The fields of a scan result observed by the claims (the remaining
fields of the Python dict are presentational). -/
structure Result where
  subreddit : String
  url : String
  intent : String
  score : Int
deriving DecidableEq, Repr

/-- The seen-independent skip conditions of the post loop: older than the
cutoff, or not newer than `last_scan_timestamp` when that is set. -/
def stale (cutoff : Int) (lastTs : Option Int) (p : RawPost) : Bool :=
  decide (p.created_utc < cutoff) ||
    (match lastTs with
     | some t => decide (p.created_utc ≤ t)
     | none => false)

/-- The result record built for a kept post. -/
def mk_result (sub : String) (keywords : List String) (p : RawPost) : Result :=
  let txt := p.title ++ " " ++ p.selftext
  { subreddit := sub
    url := "https://reddit.com" ++ p.permalink
    intent := get_intent_level txt (matches_keywords keywords txt)
    score := p.score }

/-- The post loop of `scan_subreddit` on an already-fetched post list,
threading the `seen_posts` cache: each post is skipped when stale or
already seen; otherwise its id is recorded and it is kept per
`keep_decision`. -/
def scan_posts (keywords signals : List String) (sub : String) (cutoff : Int)
    (lastTs : Option Int) (seen : List String) :
    List RawPost → List Result × List String
  | [] => ([], seen)
  | p :: ps =>
    if stale cutoff lastTs p || seen.contains p.pid then
      scan_posts keywords signals sub cutoff lastTs seen ps
    else
      let rest := scan_posts keywords signals sub cutoff lastTs (p.pid :: seen) ps
      if keep_decision keywords signals (p.title ++ " " ++ p.selftext) then
        (mk_result sub keywords p :: rest.1, rest.2)
      else rest

/-- Model of `scan_subreddit`: fetch the posts of one subreddit and run the post
loop; a fetch failure (`none`) is caught and yields no results. -/
def scan_subreddit (keywords signals : List String)
    (fetch : String → Option (List RawPost)) (cutoff : Int) (lastTs : Option Int)
    (seen : List String) (sub : String) : List Result × List String :=
  match fetch sub with
  | none => ([], seen)
  | some posts => scan_posts keywords signals sub cutoff lastTs seen posts

/-- The per-batch scan loop of `trigger_scan` (and of
`scan_all_subreddits`): scan each subreddit in order, concatenating
results and threading the seen cache. -/
def scan_batch (keywords signals : List String)
    (fetch : String → Option (List RawPost)) (cutoff : Int) (lastTs : Option Int)
    (seen : List String) : List String → List Result × List String
  | [] => ([], seen)
  | sub :: subs =>
    let r := scan_subreddit keywords signals fetch cutoff lastTs seen sub
    let rest := scan_batch keywords signals fetch cutoff lastTs r.2 subs
    (r.1 ++ rest.1, rest.2)

/-! ## OpportunityStore (local_storage.py / supabase_storage.py) -/

/-- A stored opportunity record (the fields the claims observe). -/
structure Opp where
  id : String
  url : String
  status : String
  reply_url : String
  feedback : String
  scan_time : String
deriving DecidableEq, Repr

/-- An incoming record handed to `append_opportunities`; optional fields
model dict keys that may be absent. -/
structure NewOpp where
  url : String
  status : Option String
  reply_url : Option String
  feedback : Option String
deriving DecidableEq, Repr

/-- The normalisation both backends perform on each appended record:
overwrite `id` with `generate_id(url)`, stamp `scan_time`, default
`status` to "pending" and `reply_url` to "" when absent. -/
def prepare_opp (gid : String → String) (now : String) (r : NewOpp) : Opp :=
  { id := gid r.url
    url := r.url
    status := r.status.getD ("pending")
    reply_url := r.reply_url.getD ("")
    feedback := r.feedback.getD ("")
    scan_time := now }

/-- Model of `local_storage.append_opportunities`: plain list append. -/
def append_opportunities (gid : String → String) (now : String)
    (store : List Opp) (new : List NewOpp) : List Opp :=
  store ++ new.map (prepare_opp gid now)

/-- One row of a Supabase `upsert(..., on_conflict="id")`: replace the
row with the same id when one exists, insert otherwise. -/
def upsert_one (store : List Opp) (o : Opp) : List Opp :=
  if store.any (fun x => x.id == o.id) then
    store.map (fun x => if x.id == o.id then o else x)
  else store ++ [o]

/-- Model of `supabase_storage.append_opportunities`: normalise then upsert each
record by id. -/
def supabase_append_opportunities (gid : String → String) (now : String)
    (store : List Opp) (new : List NewOpp) : List Opp :=
  (new.map (prepare_opp gid now)).foldl upsert_one store

/-- Model of `local_storage.update_opportunity_status`: set the status of the first
record with the given id (Python loops and breaks on the first match). -/
def update_opportunity_status : List Opp → String → String → List Opp
  | [], _, _ => []
  | o :: os, oid, st =>
    if o.id = oid then { o with status := st } :: os
    else o :: update_opportunity_status os oid st

/-- Model of `local_storage.save_reply_url`: set `reply_url` and status "replied"
together on the first record with the given id. -/
def save_reply_url : List Opp → String → String → List Opp
  | [], _, _ => []
  | o :: os, oid, url =>
    if o.id = oid then { o with reply_url := url, status := "replied" } :: os
    else o :: save_reply_url os oid url

/-- Model of `local_storage.save_feedback`: set `feedback` and status "skipped"
together on the first record with the given id. -/
def save_feedback : List Opp → String → String → List Opp
  | [], _, _ => []
  | o :: os, oid, fb =>
    if o.id = oid then { o with feedback := fb, status := "skipped" } :: os
    else o :: save_feedback os oid fb

/-- The spec's record invariant. -/
def opp_inv (o : Opp) : Prop :=
  (o.status = "replied" → o.reply_url ≠ "") ∧
  (o.status = "skipped" → o.feedback ≠ "")

instance (o : Opp) : Decidable (opp_inv o) := by
  unfold opp_inv; infer_instance

/-- The invariant over a whole store. -/
def store_inv (s : List Opp) : Prop := ∀ o ∈ s, opp_inv o

instance (s : List Opp) : Decidable (store_inv s) := by
  unfold store_inv; infer_instance

/-- A mutation of the opportunity store (the three operations the claim
quantifies over). -/
inductive StoreOp where
  | upd (oid st : String)
  | reply (oid url : String)
  | fb (oid f : String)
deriving DecidableEq, Repr

/-- Apply one store operation. -/
def apply_op (s : List Opp) : StoreOp → List Opp
  | .upd oid st => update_opportunity_status s oid st
  | .reply oid url => save_reply_url s oid url
  | .fb oid f => save_feedback s oid f

/-- Apply a sequence of store operations. -/
def apply_ops (s : List Opp) (ops : List StoreOp) : List Opp :=
  ops.foldl apply_op s

/-- The operations that write a status together with its non-empty
companion field: status updates to anything other than "replied"/"skipped",
reply saves with a non-empty URL, feedback saves with non-empty text. -/
def safe_op : StoreOp → Prop
  | .upd _ st => st ≠ "replied" ∧ st ≠ "skipped"
  | .reply _ url => url ≠ ""
  | .fb _ f => f ≠ ""

instance (op : StoreOp) : Decidable (safe_op op) := by
  cases op <;> { unfold safe_op; infer_instance }

/-! ## trigger_scan (main.py) and scan_all_subreddits (reddit_scanner.py) -/

/-- The mutable state the scan endpoint reads and writes: the persisted
rotation cursor, the scanner's in-process seen-post cache, and the
opportunity store. -/
structure PipeState where
  next_index : Nat
  seen : List String
  store : List Opp
deriving Repr

/-- The conversion `trigger_scan` applies to each new result before
appending it to the store (`status = "pending"`, `reply_url = ""`). -/
def result_to_new (r : Result) : NewOpp :=
  { url := r.url, status := some ("pending"), reply_url := some (""), feedback := none }

/-- Model of `trigger_scan` (`POST /api/scan`): read existing URLs, advance the
rotation, scan the batch, drop results whose URL is already stored, and
append the remainder.  Returns the list of newly stored results (whose
length is the reported `new_opportunities`) and the updated state.  The
reply-suggestion collaborator does not affect any modelled field. -/
def trigger_scan (keywords signals : List String)
    (fetch : String → Option (List RawPost)) (gid : String → String)
    (cutoff : Int) (lastTs : Option Int) (now : String)
    (univ : List String) (k : Nat) (st : PipeState) :
    List Result × PipeState :=
  let existing := st.store.map (fun o => o.url)
  let nxt := get_next_subreddits univ k st.next_index
  let scanned := scan_batch keywords signals fetch cutoff lastTs st.seen nxt.1
  let newResults := scanned.1.filter (fun r => !(existing.contains r.url))
  let store1 := append_opportunities gid now st.store (newResults.map result_to_new)
  (newResults, { next_index := nxt.2, seen := scanned.2, store := store1 })

/-- The sort key used by `scan_all_subreddits`:
`(x["intent"] != "HIGH", -x["score"])` compared lexicographically. -/
def intent_rank (r : Result) : Nat :=
  if r.intent = "HIGH" then 0 else 1

/-- The Python sort order of `scan_all_subreddits` (HIGH-intent first,
then descending score). -/
def resultLE (a b : Result) : Prop :=
  intent_rank a < intent_rank b ∨ (intent_rank a = intent_rank b ∧ b.score ≤ a.score)

instance : DecidableRel resultLE := fun a b => by
  unfold resultLE; infer_instance

instance : IsTotal Result resultLE := by
  constructor
  intro a b
  unfold resultLE
  rcases Nat.lt_trichotomy (intent_rank a) (intent_rank b) with h | h | h
  · exact Or.inl (Or.inl h)
  · rcases Int.le_total b.score a.score with hs | hs
    · exact Or.inl (Or.inr ⟨h, hs⟩)
    · exact Or.inr (Or.inr ⟨h.symm, hs⟩)
  · exact Or.inr (Or.inl h)

instance : IsTrans Result resultLE := by
  constructor
  intro a b c hab hbc
  unfold resultLE at *
  rcases hab with h1 | ⟨h1, s1⟩ <;> rcases hbc with h2 | ⟨h2, s2⟩
  · exact Or.inl (Nat.lt_trans h1 h2)
  · exact Or.inl (h2 ▸ h1)
  · exact Or.inl (h1 ▸ h2)
  · exact Or.inr ⟨h1.trans h2, s2.trans s1⟩

/-- Model of `scan_all_subreddits`: scan every configured subreddit, then sort the
combined results with the stable sort on `resultLE` (Python `list.sort`
is a stable sort on this key). -/
def scan_all_subreddits (keywords signals : List String)
    (fetch : String → Option (List RawPost)) (cutoff : Int) (lastTs : Option Int)
    (subs : List String) (seen : List String) : List Result × List String :=
  let r := scan_batch keywords signals fetch cutoff lastTs seen subs
  (List.insertionSort resultLE r.1, r.2)

/-- The ordering property the spec promises of reported results: a HIGH
item never follows a LOW item, and within one intent tier scores are
non-increasing. -/
def report_order (a b : Result) : Prop :=
  (b.intent = "HIGH" → a.intent = "HIGH") ∧ (a.intent = b.intent → b.score ≤ a.score)

instance : DecidableRel report_order := fun a b => by
  unfold report_order; infer_instance

/-! ## Helper lemmas -/

/-- Two distinct list members satisfying a predicate give a `countP` of at
least two. -/
theorem two_distinct_le_countP {α : Type} [DecidableEq α] (p : α → Bool)
    (l : List α) (a b : α) (ha : a ∈ l) (hb : b ∈ l) (hab : a ≠ b)
    (hpa : p a = true) (hpb : p b = true) : 2 ≤ l.countP p := by
  have ha1 : a ∈ l.filter p := List.mem_filter.mpr ⟨ha, hpa⟩
  have hb1 : b ∈ l.filter p := List.mem_filter.mpr ⟨hb, hpb⟩
  rw [List.countP_eq_length_filter]
  match hl : l.filter p with
  | [] => rw [hl] at ha1; cases ha1
  | [x] =>
    rw [hl] at ha1 hb1
    simp only [List.mem_singleton] at ha1 hb1
    exact absurd (ha1.trans hb1.symm) hab
  | x :: y :: t => simp

/-! ## Claim C1: the three-call rotation scenario -/

/-- C1, counterexample: in the scenario (universe of five, batch size 3),
the batch number the code reports after the second call is not 2: the
wrapped cursor is 1 and `get_current_batch_number` maps it to batch 1. -/
theorem rotation_scenario_cex :
    get_current_batch_number 5 3
      (get_next_subreddits ["a", "b", "c", "d", "e"] 3
        (get_next_subreddits ["a", "b", "c", "d", "e"] 3 0).2).2 ≠ 2 := by
  decide

/-- C1, amended: the three calls return the claimed batches and cursors,
but the reported batch numbers after the calls are 1, 1 and 2 (not
1, 2, 1): after the wrapping second call the cursor 1 is mapped to batch
1 of 2, and after the third call the cursor 4 is mapped to batch 2 of 2. -/
theorem rotation_scenario :
    get_next_subreddits ["a", "b", "c", "d", "e"] 3 0 = (["a", "b", "c"], 3) ∧
    get_current_batch_number 5 3 3 = 1 ∧
    get_next_subreddits ["a", "b", "c", "d", "e"] 3 3 = (["d", "e", "a"], 1) ∧
    get_current_batch_number 5 3 1 = 1 ∧
    get_next_subreddits ["a", "b", "c", "d", "e"] 3 1 = (["b", "c", "d"], 4) ∧
    get_current_batch_number 5 3 4 = 2 := by
  decide

/-! ## Claim C4: disqualifier veto precedence -/

/-- C4: any text containing a configured disqualifying phrase — in
particular one that also contains a strong-qualifier phrase — is
classified not-relevant: the veto is checked before the qualifiers. -/
theorem veto_precedence (signals : List String) (text : String)
    (hd : strong_disqualifiers.any (fun d => containsSub (lowerStr text) d) = true)
    (hq : strong_qualifiers.any (fun q => containsSub (lowerStr text) q) = true) :
    is_relevant_to_interview_query signals text = false := by
  unfold is_relevant_to_interview_query
  split
  · rfl
  · simp only [hd, if_true]

/-- Witness for C4 at a concrete text containing both the disqualifier
"resume review" and the qualifier "interview coming up". -/
theorem veto_precedence_witness :
    strong_disqualifiers.any
      (fun d => containsSub (lowerStr ("interview coming up but need resume review")) d) = true ∧
    is_relevant_to_interview_query []
      ("interview coming up but need resume review") = false :=
  ⟨by decide, veto_precedence [] ("interview coming up but need resume review")
    (by decide) (by decide)⟩

/-! ## Claim C5: the two-signal threshold of the secondary check -/

/-- C5: when the only keyword match is "interview" and the text contains
no strong qualifier and no disqualifier, the secondary check is the
signal count with threshold 2: a text containing exactly one configured
relevant-signal phrase is not relevant, and a text containing two
distinct configured relevant-signal phrases is relevant. -/
theorem signal_threshold (keywords signals : List String) (t1 t2 : String)
    (h1k : matches_keywords keywords t1 = ["interview"])
    (h2k : matches_keywords keywords t2 = ["interview"])
    (h1d : strong_disqualifiers.any (fun d => containsSub (lowerStr t1) d) = false)
    (h1q : strong_qualifiers.any (fun q => containsSub (lowerStr t1) q) = false)
    (h2d : strong_disqualifiers.any (fun d => containsSub (lowerStr t2) d) = false)
    (h2q : strong_qualifiers.any (fun q => containsSub (lowerStr t2) q) = false)
    (h1c : signals.countP (fun s => containsSub (lowerStr t1) s) = 1)
    (s1 s2 : String) (hs1 : s1 ∈ signals) (hs2 : s2 ∈ signals) (hne : s1 ≠ s2)
    (hc1 : containsSub (lowerStr t2) s1 = true)
    (hc2 : containsSub (lowerStr t2) s2 = true) (ht2 : t2 ≠ "") :
    is_relevant_to_interview_query signals t1 = false ∧
    is_relevant_to_interview_query signals t2 = true := by
  constructor
  · unfold is_relevant_to_interview_query
    split
    · rfl
    · simp only [h1d, h1q, if_false, h1c]
      decide
  · have hcount : 2 ≤ signals.countP (fun s => containsSub (lowerStr t2) s) :=
      two_distinct_le_countP _ signals s1 s2 hs1 hs2 hne hc1 hc2
    unfold is_relevant_to_interview_query
    rw [if_neg ht2]
    simp only [h2d, h2q, if_false]
    simpa using hcount

/-- Witness for C5: with signal list ["data science", "job offer"], the
text containing only "data science" is rejected and the text containing
both signals is accepted. -/
theorem signal_threshold_witness :
    is_relevant_to_interview_query ["data science", "job offer"]
      ("interview data science stuff") = false ∧
    is_relevant_to_interview_query ["data science", "job offer"]
      ("interview data science stuff job offer") = true :=
  signal_threshold ["interview"] ["data science", "job offer"]
    ("interview data science stuff") ("interview data science stuff job offer")
    (by decide) (by decide) (by decide) (by decide) (by decide) (by decide)
    (by decide) ("data science") ("job offer") (by decide) (by decide)
    (by decide) (by decide) (by decide) (by decide)

/-! ## Claim C6: the catch-all ambiguity gate of the scan loop -/

/-- C6: in the scan loop, an item whose matched-keyword list is exactly
`["interview"]` is kept iff it passes the secondary relevance check, and
an item with any other non-empty matched-keyword list is kept
unconditionally. -/
theorem ambiguous_gate (keywords signals : List String) (text : String) :
    (matches_keywords keywords text = ["interview"] →
      keep_decision keywords signals text =
        is_relevant_to_interview_query signals text) ∧
    (matches_keywords keywords text ≠ [] →
      matches_keywords keywords text ≠ ["interview"] →
      keep_decision keywords signals text = true) := by
  constructor
  · intro hm
    cases hrel : is_relevant_to_interview_query signals text with
    | false => simp [keep_decision, hm, hrel]
    | true => simp [keep_decision, hm, hrel]
  · intro hne hni
    simp [keep_decision, hne, hni]

/-- Witness for C6: the catch-all-only match defers to the secondary
check, while the match list `["prep"]` is accepted immediately. -/
theorem ambiguous_gate_witness :
    keep_decision ["interview"] ["data science", "job offer"]
        ("interview data science stuff job offer") =
      is_relevant_to_interview_query ["data science", "job offer"]
        ("interview data science stuff job offer") ∧
    keep_decision ["prep"] [] ("prep help") = true :=
  ⟨(ambiguous_gate ["interview"] ["data science", "job offer"]
      ("interview data science stuff job offer")).1 (by decide),
   (ambiguous_gate ["prep"] [] ("prep help")).2 (by decide) (by decide)⟩

/-! ## Claim C8: the status/companion-field invariant -/

/-- Lemma: `update_opportunity_status` preserves the invariant when the new
status is neither "replied" nor "skipped". -/
theorem store_inv_update (s : List Opp) (oid st : String) (hs : store_inv s)
    (h1 : st ≠ "replied") (h2 : st ≠ "skipped") :
    store_inv (update_opportunity_status s oid st) := by
  induction s with
  | nil => intro x hx; cases hx
  | cons o os ih =>
    intro x hx
    unfold update_opportunity_status at hx
    split at hx
    · rcases List.mem_cons.mp hx with rfl | hx1
      · exact ⟨fun hr => absurd hr h1, fun hk => absurd hk h2⟩
      · exact hs _ (List.mem_cons_of_mem _ hx1)
    · rcases List.mem_cons.mp hx with rfl | hx1
      · exact hs _ (List.mem_cons_self _ _)
      · exact ih (fun y hy => hs y (List.mem_cons_of_mem _ hy)) x hx1

/-- Lemma: `save_reply_url` preserves the invariant when the URL is non-empty
(it writes the URL and the status "replied" together). -/
theorem store_inv_reply (s : List Opp) (oid url : String) (hs : store_inv s)
    (h1 : url ≠ "") : store_inv (save_reply_url s oid url) := by
  induction s with
  | nil => intro x hx; cases hx
  | cons o os ih =>
    intro x hx
    unfold save_reply_url at hx
    split at hx
    · rcases List.mem_cons.mp hx with rfl | hx1
      · exact ⟨fun _ => h1, fun hk => by simp at hk⟩
      · exact hs _ (List.mem_cons_of_mem _ hx1)
    · rcases List.mem_cons.mp hx with rfl | hx1
      · exact hs _ (List.mem_cons_self _ _)
      · exact ih (fun y hy => hs y (List.mem_cons_of_mem _ hy)) x hx1

/-- Lemma: `save_feedback` preserves the invariant when the feedback text is
non-empty (it writes the text and the status "skipped" together). -/
theorem store_inv_feedback (s : List Opp) (oid fb : String) (hs : store_inv s)
    (h1 : fb ≠ "") : store_inv (save_feedback s oid fb) := by
  induction s with
  | nil => intro x hx; cases hx
  | cons o os ih =>
    intro x hx
    unfold save_feedback at hx
    split at hx
    · rcases List.mem_cons.mp hx with rfl | hx1
      · exact ⟨fun hr => by simp at hr, fun _ => h1⟩
      · exact hs _ (List.mem_cons_of_mem _ hx1)
    · rcases List.mem_cons.mp hx with rfl | hx1
      · exact hs _ (List.mem_cons_self _ _)
      · exact ih (fun y hy => hs y (List.mem_cons_of_mem _ hy)) x hx1

/-- C8, counterexample: the claim fails as stated, because
`update_opportunity_status` writes an arbitrary status without touching
the companion field: setting a pending record (empty `reply_url`) to
"replied" leaves the invariant violated. -/
theorem status_companion_cex :
    ¬ store_inv (apply_ops
      [{ id := "i", url := "u", status := "pending", reply_url := "",
         feedback := "", scan_time := "t" }]
      [StoreOp.upd ("i") ("replied")]) := by
  decide

/-- C8, amended: the invariant is preserved by every sequence of the
three store operations provided plain status updates never write
"replied" or "skipped" (those statuses are written only by
`save_reply_url` / `save_feedback`, together with a non-empty companion
field). -/
theorem status_companion_invariant (s : List Opp) (ops : List StoreOp)
    (hs : store_inv s) (hops : ∀ op ∈ ops, safe_op op) :
    store_inv (apply_ops s ops) := by
  induction ops generalizing s with
  | nil => exact hs
  | cons op ops ih =>
    have hsafe := hops op (List.mem_cons_self _ _)
    have hrest : ∀ o ∈ ops, safe_op o := fun o ho => hops o (List.mem_cons_of_mem _ ho)
    have hstep : store_inv (apply_op s op) := by
      cases op with
      | upd oid st => exact store_inv_update s oid st hs hsafe.1 hsafe.2
      | reply oid url => exact store_inv_reply s oid url hs hsafe
      | fb oid f => exact store_inv_feedback s oid f hs hsafe
    exact ih (apply_op s op) hstep hrest

/-- Witness for the amended C8: a concrete sequence of one safe status
update, one reply save and one feedback save preserves the invariant. -/
theorem status_companion_witness :
    store_inv (apply_ops
      [{ id := "i", url := "u", status := "pending", reply_url := "",
         feedback := "", scan_time := "t" }]
      [StoreOp.upd ("i") ("in_progress"), StoreOp.reply ("i") ("https://x"),
       StoreOp.fb ("i") ("not a fit")]) :=
  status_companion_invariant _ _ (by decide) (by decide)

/-! ## Claim C9: a fetch failure is isolated to its forum -/

/-- C9: a fetch failure for one forum in the batch is caught in
`scan_subreddit`: that forum contributes no results and does not touch
the seen cache, and the scan of the whole batch equals the scan of the
batch with the failing forum removed — the remaining forums are still
scanned. -/
theorem fetch_failure_isolated (keywords signals : List String)
    (fetch : String → Option (List RawPost)) (cutoff : Int) (lastTs : Option Int)
    (seen : List String) (pre post : List String) (f : String)
    (hf : fetch f = none) :
    scan_batch keywords signals fetch cutoff lastTs seen (pre ++ f :: post) =
      scan_batch keywords signals fetch cutoff lastTs seen (pre ++ post) := by
  induction pre generalizing seen with
  | nil =>
    simp only [List.nil_append]
    conv_lhs => rw [scan_batch]
    simp [scan_subreddit, hf]
  | cons a pre ih =>
    simp only [List.cons_append]
    simp only [scan_batch]
    simp only [ih]

/-- Witness for C9: with a fetch that fails on forum "z", scanning
["a", "z", "b"] equals scanning ["a", "b"]. -/
theorem fetch_failure_isolated_witness :
    scan_batch ["prep"] [] (fun s => if s = "z" then none else some []) 0 none []
        (["a"] ++ ["z", "b"]) =
      scan_batch ["prep"] [] (fun s => if s = "z" then none else some []) 0 none []
        (["a"] ++ ["b"]) :=
  fetch_failure_isolated ["prep"] [] (fun s => if s = "z" then none else some [])
    0 none [] ["a"] ["b"] ("z") (by decide)

/-! ## Claim C10: local vs Supabase append -/

/-- Folding `upsert_one` over records whose ids are fresh for the store
and pairwise distinct is a plain append. -/
theorem foldl_upsert_fresh (store : List Opp) (l : List Opp)
    (hfresh : ∀ r ∈ l, ∀ o ∈ store, o.id ≠ r.id)
    (hnd : (l.map (fun o => o.id)).Nodup) :
    l.foldl upsert_one store = store ++ l := by
  induction l generalizing store with
  | nil => simp
  | cons a l ih =>
    have hna : store.any (fun x => x.id == a.id) = false := by
      rw [List.any_eq_false]
      intro x hx
      simp only [beq_iff_eq]
      exact hfresh a (List.mem_cons_self _ _) x hx
    have hstep : upsert_one store a = store ++ [a] := by
      unfold upsert_one
      rw [hna]
      simp
    have hnd0 : (a.id :: l.map (fun o => o.id)).Nodup := by
      simpa using hnd
    have hnd1 : (l.map (fun o => o.id)).Nodup := (List.nodup_cons.mp hnd0).2
    have hid : a.id ∉ l.map (fun o => o.id) := (List.nodup_cons.mp hnd0).1
    have hfresh1 : ∀ r ∈ l, ∀ o ∈ store ++ [a], o.id ≠ r.id := by
      intro r hr o ho
      rcases List.mem_append.mp ho with h | h
      · exact hfresh r (List.mem_cons_of_mem _ hr) o h
      · rcases List.mem_singleton.mp h with rfl
        intro heq
        exact hid (heq ▸ List.mem_map_of_mem (fun o => o.id) hr)
    calc (a :: l).foldl upsert_one store
        = l.foldl upsert_one (upsert_one store a) := rfl
      _ = (store ++ [a]) ++ l := by rw [hstep]; exact ih _ hfresh1 hnd1
      _ = store ++ a :: l := by simp

/-- C10, counterexample: re-appending a record whose id already exists
does not have the same effect in the two backends: the local backend
appends a duplicate row while Supabase upserts in place, so the stores
are not even equal as multisets (here: two rows versus one). -/
theorem append_equiv_cex :
    ¬ List.Perm
      (supabase_append_opportunities (fun u => u) "t"
        (supabase_append_opportunities (fun u => u) "t" []
          [{ url := "u", status := none, reply_url := none, feedback := none }])
        [{ url := "u", status := none, reply_url := none, feedback := none }])
      (append_opportunities (fun u => u) "t"
        (append_opportunities (fun u => u) "t" []
          [{ url := "u", status := none, reply_url := none, feedback := none }])
        [{ url := "u", status := none, reply_url := none, feedback := none }]) := by
  decide

/-- C10, amended: the two append operations agree (record for record,
hence as multisets) whenever the generated ids of the appended records
are pairwise distinct and none of them is already present in the store;
when an id already exists, the local backend appends a duplicate row
while Supabase overwrites the existing row in place. -/
theorem append_equiv_fresh (gid : String → String) (now : String)
    (store : List Opp) (new : List NewOpp)
    (hfresh : ∀ r ∈ new.map (prepare_opp gid now), ∀ o ∈ store, o.id ≠ r.id)
    (hnd : ((new.map (prepare_opp gid now)).map (fun o => o.id)).Nodup) :
    supabase_append_opportunities gid now store new =
      append_opportunities gid now store new := by
  unfold supabase_append_opportunities append_opportunities
  exact foldl_upsert_fresh store _ hfresh hnd

/-- Witness for the amended C10: appending two records with distinct
fresh URLs gives identical stores in both backends. -/
theorem append_equiv_fresh_witness :
    supabase_append_opportunities (fun u => u) "t"
        [{ id := "w", url := "w", status := "pending", reply_url := "",
           feedback := "", scan_time := "t0" }]
        [{ url := "u", status := none, reply_url := none, feedback := none },
         { url := "v", status := none, reply_url := none, feedback := none }] =
      append_opportunities (fun u => u) "t"
        [{ id := "w", url := "w", status := "pending", reply_url := "",
           feedback := "", scan_time := "t0" }]
        [{ url := "u", status := none, reply_url := none, feedback := none },
         { url := "v", status := none, reply_url := none, feedback := none }] :=
  append_equiv_fresh (fun u => u) "t" _ _ (by decide) (by decide)

/-! ## Claim C3: the HIGH-before-LOW / descending-score ordering -/

/-- The sort order implies the spec's reported-order relation. -/
theorem resultLE_report_order {a b : Result} (h : resultLE a b) : report_order a b := by
  unfold resultLE at h
  constructor
  · intro hb
    by_contra ha
    rw [intent_rank, intent_rank, if_pos hb, if_neg ha] at h
    rcases h with h | ⟨h, _⟩ <;> omega
  · intro hint
    have hr : intent_rank a = intent_rank b := by rw [intent_rank, intent_rank, hint]
    rcases h with h | ⟨_, hs⟩
    · omega
    · exact hs

/-- C3, counterexample: the rotating scan endpoint `trigger_scan` does
not sort the results it reports and stores: with one forum delivering a
LOW-intent post before a HIGH-intent one, the reported list has the LOW
item first. -/
theorem scan_report_sorted_cex :
    ¬ ((trigger_scan ["prep"] []
        (fun _ => some
          [{ pid := "p1", title := "prep help", selftext := "x",
             permalink := "/r/s/1", score := 1, created_utc := 10 },
           { pid := "p2", title := "coding interview prep", selftext := "x",
             permalink := "/r/s/2", score := 9, created_utc := 10 }])
        (fun u => u) 0 none ("t") ["s"] 1
        { next_index := 0, seen := [], store := [] }).1.Pairwise report_order) := by
  decide

/-- C3, amended: the sorted presentation is produced by
`scan_all_subreddits` (the full-scan entry point), not by the rotating
`trigger_scan` endpoint: the list `scan_all_subreddits` returns is
pairwise ordered with every HIGH-intent item before every LOW-intent
item and non-increasing scores within each intent tier. -/
theorem scan_report_sorted (keywords signals : List String)
    (fetch : String → Option (List RawPost)) (cutoff : Int) (lastTs : Option Int)
    (subs seen : List String) :
    ((scan_all_subreddits keywords signals fetch cutoff lastTs subs seen).1).Pairwise
      report_order := by
  have h := List.sorted_insertionSort resultLE
    (scan_batch keywords signals fetch cutoff lastTs seen subs).1
  exact List.Pairwise.imp (fun hab => resultLE_report_order hab) h

/-! ## Structural lemmas about one rotation step -/

/-- A mid-cycle call (the slice fits strictly inside the list): the batch
is the next `k` identifiers and the cursor advances by `k`. -/
theorem get_next_mid (u : List String) (k c : Nat) (hc : c < u.length)
    (hck : c + k < u.length) :
    get_next_subreddits u k c = ((u.drop c).take k, c + k) := by
  have h1 : ¬ (u.length ≤ c) := Nat.not_le.mpr hc
  have h2 : min (c + k) u.length = c + k := Nat.min_eq_left (Nat.le_of_lt hck)
  have h3 : c + k - c = k := by omega
  have h4 : ((u.drop c).take k).length = k := by
    rw [List.length_take, List.length_drop]; omega
  have h5 : ¬ (((u.drop c).take k).length < k ∧ 0 < c) := by
    rw [h4]; omega
  simp only [get_next_subreddits, if_neg h1, h2, h3, if_neg h5, if_pos hck]

/-- A call that lands exactly on the end of the list: the batch is the
whole remaining tail and the cursor wraps to 0. -/
theorem get_next_exact (u : List String) (k c : Nat) (hc : c < u.length)
    (hck : c + k = u.length) :
    get_next_subreddits u k c = (u.drop c, 0) := by
  have h1 : ¬ (u.length ≤ c) := Nat.not_le.mpr hc
  have h2 : min (c + k) u.length = u.length := by omega
  have h3 : (u.drop c).take (u.length - c) = u.drop c :=
    List.take_of_length_le (by rw [List.length_drop])
  have h4 : (u.drop c).length = u.length - c := List.length_drop c u
  have h5 : ¬ ((u.drop c).length < k ∧ 0 < c) := by
    rw [h4]; omega
  have h6 : ¬ (u.length < u.length) := by omega
  simp only [get_next_subreddits, if_neg h1, h2, h3, if_neg h5, if_neg h6]

/-- Any call that reaches the end of the list returns a batch containing
the whole remaining tail (with or without wrap-around padding). -/
theorem get_next_tail_subset (u : List String) (k c : Nat) (hc : c < u.length)
    (hck : u.length ≤ c + k) :
    u.drop c ⊆ (get_next_subreddits u k c).1 := by
  have h1 : ¬ (u.length ≤ c) := Nat.not_le.mpr hc
  have h2 : min (c + k) u.length = u.length := by omega
  have h3 : (u.drop c).take (u.length - c) = u.drop c :=
    List.take_of_length_le (by rw [List.length_drop])
  simp only [get_next_subreddits, if_neg h1, h2, h3]
  split
  · exact List.subset_append_left _ _
  · exact fun x hx => hx

/-- A call from cursor 0 on a universe no longer than the batch size
returns the whole universe and resets the cursor to 0. -/
theorem get_next_whole (u : List String) (k : Nat) (hk : u.length ≤ k) :
    get_next_subreddits u k 0 = (u, 0) := by
  rcases Nat.eq_zero_or_pos u.length with h0 | hpos
  · have hu : u = [] := List.length_eq_zero.mp h0
    subst hu
    simp [get_next_subreddits]
  · have h1 : ¬ (u.length ≤ 0) := by omega
    have h2 : min (0 + k) u.length = u.length := by omega
    have h3 : (u.drop 0).take (u.length - 0) = u := by
      simp
    have h6 : ¬ (u.length < u.length) := by omega
    simp only [get_next_subreddits, if_neg h1, h2, h3]
    rw [if_neg, if_neg h6]
    simp

/-! ## Claim C2: full-cycle coverage and the end-of-cycle batch number -/

/-- Coverage: starting at cursor `c`, `n` calls whose slices reach the
end of the list (`length ≤ c + n·k`) visit every identifier from
position `c` on. -/
theorem rot_batches_cover (u : List String) (k : Nat) :
    ∀ (n c : Nat), u.length ≤ c + n * k →
      ∀ x ∈ u.drop c, x ∈ (rot_batches u k n c).join := by
  intro n
  induction n with
  | zero =>
    intro c hbound x hx
    rw [List.drop_eq_nil_iff.mpr (by omega)] at hx
    cases hx
  | succ n ih =>
    intro c hbound x hx
    have hc : c < u.length := by
      by_contra hcn
      rw [List.drop_eq_nil_iff.mpr (by omega)] at hx
      cases hx
    have hmul : (n + 1) * k = n * k + k := Nat.succ_mul n k
    by_cases hck : c + k < u.length
    · rw [rot_batches, get_next_mid u k c hc hck]
      have hsplit : u.drop c = (u.drop c).take k ++ u.drop (c + k) := by
        conv_lhs => rw [← List.take_append_drop k (u.drop c)]
        rw [List.drop_drop]
      rw [hsplit] at hx
      rcases List.mem_append.mp hx with h1 | h2
      · exact List.mem_join.mpr ⟨(u.drop c).take k, List.mem_cons_self _ _, h1⟩
      · have hx2 := ih (c + k) (by omega) x h2
        rcases List.mem_join.mp hx2 with ⟨b, hb, hxb⟩
        exact List.mem_join.mpr ⟨b, List.mem_cons_of_mem _ hb, hxb⟩
    · rw [rot_batches]
      have hsub := get_next_tail_subset u k c hc (by omega)
      exact List.mem_join.mpr
        ⟨(get_next_subreddits u k c).1, List.mem_cons_self _ _, hsub hx⟩

/-- Cursor: starting strictly inside the list, a run of calls whose
total advance lands exactly on the end leaves the cursor at 0. -/
theorem rot_cursor_exact (u : List String) (k : Nat) :
    ∀ (j c : Nat), 0 < j → c < u.length → c + j * k = u.length →
      rot_cursor u k j c = 0 := by
  intro j
  induction j with
  | zero => omega
  | succ j ih =>
    intro c _ hc hsum
    by_cases hj : j = 0
    · subst hj
      have hck : c + k = u.length := by omega
      show rot_cursor u k 0 (get_next_subreddits u k c).2 = 0
      rw [get_next_exact u k c hc hck]
      rfl
    · have hmul : (j + 1) * k = j * k + k := Nat.succ_mul j k
      have hkpos : 0 < k := by
        rcases Nat.eq_zero_or_pos k with rfl | h
        · omega
        · exact h
      have hjk : 0 < j * k := Nat.mul_pos (by omega) hkpos
      have hck : c + k < u.length := by omega
      show rot_cursor u k j (get_next_subreddits u k c).2 = 0
      rw [get_next_mid u k c hc hck]
      exact ih (c + k) (by omega) (by omega) (by omega)

/-- C2, counterexample: with a universe of five identifiers and batch
size 3 (so ceil(N/k) = 2), immediately after the second call the
batch-number computation reports 1, not `total_batches` = 2. -/
theorem rotation_coverage_cex :
    get_current_batch_number 5 3 (rot_cursor ["a", "b", "c", "d", "e"] 3 2 0) ≠ 2 := by
  decide

/-- C2, amended: for every universe and every batch size k ≥ 1, the first
ceil(N/k) calls from cursor 0 together return every identifier at least
once; and immediately after the ceil(N/k)-th call the batch-number
computation reports `total_batches` provided k divides N or N ≤ k (in
the remaining case — a wrap with N > k — the cursor lands strictly
inside the first batch range and the computation reports 1 instead). -/
theorem rotation_coverage (u : List String) (k : Nat) (hk : 1 ≤ k)
    (hnd : u.Nodup) :
    (∀ x ∈ u, x ∈ (rot_batches u k ((u.length + k - 1) / k) 0).join) ∧
    (u.length % k = 0 ∨ u.length ≤ k →
      get_current_batch_number u.length k
          (rot_cursor u k ((u.length + k - 1) / k) 0) =
        (u.length + k - 1) / k) := by
  constructor
  · intro x hx
    have hbound : u.length ≤ 0 + ((u.length + k - 1) / k) * k := by
      have h1 := Nat.div_add_mod (u.length + k - 1) k
      have h2 : (u.length + k - 1) % k < k := Nat.mod_lt _ (by omega)
      have h3 : k * ((u.length + k - 1) / k) = ((u.length + k - 1) / k) * k :=
        Nat.mul_comm _ _
      omega
    exact rot_batches_cover u k _ 0 hbound x (by simpa using hx)
  · intro hside
    rcases Nat.eq_zero_or_pos u.length with hN0 | hNpos
    · have hm : (u.length + k - 1) / k = 0 := by
        rw [hN0]
        exact Nat.div_eq_of_lt (by omega)
      rw [hm]
      show get_current_batch_number u.length k 0 = 0
      simp [get_current_batch_number, hm]
    · by_cases hNk : u.length ≤ k
      · have hm : (u.length + k - 1) / k = 1 :=
          Nat.div_eq_of_lt_le (by omega) (by omega)
        rw [hm]
        show get_current_batch_number u.length k
          (rot_cursor u k 0 (get_next_subreddits u k 0).2) = 1
        rw [get_next_whole u k hNk]
        show get_current_batch_number u.length k 0 = 1
        simp [get_current_batch_number, hm]
      · rcases hside with hmod | hle
        · obtain ⟨d, hd⟩ := Nat.dvd_iff_mod_eq_zero.mpr hmod
          have hdpos : 0 < d := by
            rcases Nat.eq_zero_or_pos d with rfl | h
            · omega
            · exact h
          have hm : (u.length + k - 1) / k = d := by
            rw [hd]
            have he : k * d + k - 1 = k * d + (k - 1) := by omega
            rw [he, Nat.mul_add_div (by omega), Nat.div_eq_of_lt (by omega)]
            omega
          rw [hm]
          rw [rot_cursor_exact u k d 0 hdpos hNpos
            (by rw [Nat.mul_comm d k]; omega)]
          simp [get_current_batch_number, hm]
        · omega

/-- Witness for the amended C2 at universe ["a", "b"] and batch size 1:
both identifiers are visited within the two calls and the batch number
after the second call is 2 of 2. -/
theorem rotation_coverage_witness :
    "a" ∈ (rot_batches ["a", "b"] 1 ((List.length ["a", "b"] + 1 - 1) / 1) 0).join ∧
    "b" ∈ (rot_batches ["a", "b"] 1 ((List.length ["a", "b"] + 1 - 1) / 1) 0).join ∧
    get_current_batch_number (List.length ["a", "b"]) 1
        (rot_cursor ["a", "b"] 1 ((List.length ["a", "b"] + 1 - 1) / 1) 0) =
      (List.length ["a", "b"] + 1 - 1) / 1 := by
  have h := rotation_coverage ["a", "b"] 1 (by decide) (by decide)
  exact ⟨h.1 _ (by decide), h.1 _ (by decide), h.2 (Or.inl (by decide))⟩

/-! ## Claim C7: duplicate suppression across two scans -/

/-- The post loop only ever grows the seen cache. -/
theorem scan_posts_seen_mono (keywords signals : List String) (sub : String)
    (cutoff : Int) (lastTs : Option Int) :
    ∀ (posts : List RawPost) (seen : List String),
      seen ⊆ (scan_posts keywords signals sub cutoff lastTs seen posts).2 := by
  intro posts
  induction posts with
  | nil => intro seen; exact fun a ha => ha
  | cons p ps ih =>
    intro seen
    unfold scan_posts
    split
    · exact ih seen
    · split
      · exact fun a ha => ih (p.pid :: seen) (List.mem_cons_of_mem _ ha)
      · exact fun a ha => ih (p.pid :: seen) (List.mem_cons_of_mem _ ha)

/-- After the post loop, the id of every non-stale post of the list is in
the seen cache. -/
theorem scan_posts_seen_covers (keywords signals : List String) (sub : String)
    (cutoff : Int) (lastTs : Option Int) :
    ∀ (posts : List RawPost) (seen : List String) (p : RawPost), p ∈ posts →
      stale cutoff lastTs p = false →
      p.pid ∈ (scan_posts keywords signals sub cutoff lastTs seen posts).2 := by
  intro posts
  induction posts with
  | nil => intro seen p hp; cases hp
  | cons q ps ih =>
    intro seen p hp hlive
    rcases List.mem_cons.mp hp with rfl | hp1
    · unfold scan_posts
      split
      · next hsk =>
        have hmem : p.pid ∈ seen := by
          rw [hlive, Bool.false_or] at hsk
          simpa [List.contains] using hsk
        exact scan_posts_seen_mono keywords signals sub cutoff lastTs ps seen hmem
      · have hmem : p.pid ∈ p.pid :: seen := List.mem_cons_self _ _
        split
        · exact scan_posts_seen_mono keywords signals sub cutoff lastTs ps _ hmem
        · exact scan_posts_seen_mono keywords signals sub cutoff lastTs ps _ hmem
    · unfold scan_posts
      split
      · exact ih seen p hp1 hlive
      · split
        · exact ih (q.pid :: seen) p hp1 hlive
        · exact ih (q.pid :: seen) p hp1 hlive

/-- If every post of the list is stale or already seen, the post loop
returns no results and leaves the cache unchanged. -/
theorem scan_posts_all_seen (keywords signals : List String) (sub : String)
    (cutoff : Int) (lastTs : Option Int) :
    ∀ (posts : List RawPost) (seen : List String),
      (∀ p ∈ posts, stale cutoff lastTs p = true ∨ p.pid ∈ seen) →
      scan_posts keywords signals sub cutoff lastTs seen posts = ([], seen) := by
  intro posts
  induction posts with
  | nil => intro seen _; rfl
  | cons p ps ih =>
    intro seen h
    have hcond : (stale cutoff lastTs p || seen.contains p.pid) = true := by
      rcases h p (List.mem_cons_self _ _) with hs | hm
      · simp [hs]
      · simp [List.contains, hm]
    unfold scan_posts
    rw [if_pos hcond]
    exact ih seen (fun q hq => h q (List.mem_cons_of_mem _ hq))

/-- The batch loop only ever grows the seen cache. -/
theorem scan_batch_seen_mono (keywords signals : List String)
    (fetch : String → Option (List RawPost)) (cutoff : Int) (lastTs : Option Int) :
    ∀ (subs : List String) (seen : List String),
      seen ⊆ (scan_batch keywords signals fetch cutoff lastTs seen subs).2 := by
  intro subs
  induction subs with
  | nil => intro seen; exact fun a ha => ha
  | cons sub subs ih =>
    intro seen a ha
    show a ∈ (scan_batch keywords signals fetch cutoff lastTs _ subs).2
    apply ih
    unfold scan_subreddit
    cases fetch sub with
    | none => exact ha
    | some posts =>
      exact scan_posts_seen_mono keywords signals sub cutoff lastTs posts seen ha

/-- After the batch loop, the id of every non-stale post of every
successfully fetched subreddit of the batch is in the seen cache. -/
theorem scan_batch_seen_covers (keywords signals : List String)
    (fetch : String → Option (List RawPost)) (cutoff : Int) (lastTs : Option Int) :
    ∀ (subs : List String) (seen : List String) (sub : String)
      (posts : List RawPost) (p : RawPost), sub ∈ subs → fetch sub = some posts →
      p ∈ posts → stale cutoff lastTs p = false →
      p.pid ∈ (scan_batch keywords signals fetch cutoff lastTs seen subs).2 := by
  intro subs
  induction subs with
  | nil => intro seen sub posts p hsub; cases hsub
  | cons s subs ih =>
    intro seen sub posts p hsub hf hp hlive
    rcases List.mem_cons.mp hsub with rfl | hsub1
    · show p.pid ∈ (scan_batch keywords signals fetch cutoff lastTs _ subs).2
      apply scan_batch_seen_mono
      unfold scan_subreddit
      rw [hf]
      exact scan_posts_seen_covers keywords signals sub cutoff lastTs posts seen p hp hlive
    · exact ih _ sub posts p hsub1 hf hp hlive

/-- If, for every subreddit of the batch, every non-stale fetched post is
already seen, the batch loop returns no results and leaves the cache
unchanged. -/
theorem scan_batch_all_seen (keywords signals : List String)
    (fetch : String → Option (List RawPost)) (cutoff : Int) (lastTs : Option Int) :
    ∀ (subs : List String) (seen : List String),
      (∀ sub ∈ subs, ∀ posts, fetch sub = some posts →
        ∀ p ∈ posts, stale cutoff lastTs p = true ∨ p.pid ∈ seen) →
      scan_batch keywords signals fetch cutoff lastTs seen subs = ([], seen) := by
  intro subs
  induction subs with
  | nil => intro seen _; rfl
  | cons s subs ih =>
    intro seen h
    have hsub : scan_subreddit keywords signals fetch cutoff lastTs seen s = ([], seen) := by
      unfold scan_subreddit
      cases hfs : fetch s with
      | none => rfl
      | some posts =>
        exact scan_posts_all_seen keywords signals s cutoff lastTs posts seen
          (h s (List.mem_cons_self _ _) posts hfs)
    show (let r := scan_subreddit keywords signals fetch cutoff lastTs seen s;
      let rest := scan_batch keywords signals fetch cutoff lastTs r.2 subs;
      (r.1 ++ rest.1, rest.2)) = ([], seen)
    rw [hsub]
    simp only []
    rw [ih seen (fun t ht => h t (List.mem_cons_of_mem _ ht))]
    rfl

/-- C7, counterexample: the claim fails as stated because the second
invocation scans the next rotation batch: with universe ["a", "b"] and
batch size 1, an unchanged fetch, and a matching post in forum "b", the
first run (scanning "a") stores nothing and the second run (scanning
"b") reports one new opportunity, not zero. -/
theorem second_scan_empty_cex :
    (trigger_scan ["prep"] []
        (fun s => if s = "b" then some
          [{ pid := "p1", title := "prep help", selftext := "x",
             permalink := "/r/b/1", score := 5, created_utc := 10 }] else some [])
        (fun u => u) 0 none ("t2") ["a", "b"] 1
        (trigger_scan ["prep"] []
          (fun s => if s = "b" then some
            [{ pid := "p1", title := "prep help", selftext := "x",
               permalink := "/r/b/1", score := 5, created_utc := 10 }] else some [])
          (fun u => u) 0 none ("t1") ["a", "b"] 1
          { next_index := 0, seen := [], store := [] }).2).1 ≠ [] := by
  decide

/-- C7, amended: the duplicate suppression is idempotent on the forums
actually rescanned: when the batch covers the whole universe (cursor 0
and universe no larger than the batch size, so both invocations scan the
same forums), a second invocation with an unchanged fetch reports zero
new opportunities; a forum first reached by the rotation in the second
invocation may still contribute new ones. -/
theorem second_scan_empty (keywords signals : List String)
    (fetch : String → Option (List RawPost)) (gid : String → String)
    (cutoff : Int) (lastTs : Option Int) (now1 now2 : String)
    (univ : List String) (k : Nat) (st : PipeState)
    (h0 : st.next_index = 0) (hk : univ.length ≤ k) :
    (trigger_scan keywords signals fetch gid cutoff lastTs now2 univ k
      (trigger_scan keywords signals fetch gid cutoff lastTs now1 univ k st).2).1 = [] := by
  have hg : get_next_subreddits univ k 0 = (univ, 0) := get_next_whole univ k hk
  have hall : ∀ sub ∈ univ, ∀ posts, fetch sub = some posts → ∀ p ∈ posts,
      stale cutoff lastTs p = true ∨
        p.pid ∈ (scan_batch keywords signals fetch cutoff lastTs st.seen univ).2 := by
    intro sub hs posts hf p hp
    cases hst : stale cutoff lastTs p with
    | true => exact Or.inl rfl
    | false =>
      exact Or.inr (scan_batch_seen_covers keywords signals fetch cutoff lastTs
        univ st.seen sub posts p hs hf hp hst)
  simp only [trigger_scan, h0, hg]
  rw [scan_batch_all_seen keywords signals fetch cutoff lastTs univ _ hall]
  rfl

/-- Witness for the amended C7: one forum, batch size 1; the first run
stores the matching post, the second run reports nothing new. -/
theorem second_scan_empty_witness :
    (trigger_scan ["prep"] []
        (fun _ => some
          [{ pid := "p1", title := "prep help", selftext := "x",
             permalink := "/r/a/1", score := 5, created_utc := 10 }])
        (fun u => u) 0 none ("t2") ["a"] 1
        (trigger_scan ["prep"] []
          (fun _ => some
            [{ pid := "p1", title := "prep help", selftext := "x",
               permalink := "/r/a/1", score := 5, created_utc := 10 }])
          (fun u => u) 0 none ("t1") ["a"] 1
          { next_index := 0, seen := [], store := [] }).2).1 = [] :=
  second_scan_empty ["prep"] []
    (fun _ => some
      [{ pid := "p1", title := "prep help", selftext := "x",
         permalink := "/r/a/1", score := 5, created_utc := 10 }])
    (fun u => u) 0 none ("t1") "t2" ["a"] 1
    { next_index := 0, seen := [], store := [] } (by decide) (by decide)
